import Mathlib

/-!
Verification development for the SurveyCTO dashboard data pipeline
(src/utils.py and src/specific_scripts/process.py).

The embedding models pandas cell values as an inductive type with an
explicit missing value (NaN), rows as association lists from column name
to value, and whole tables either as lists of rows (for the row-wise
explosion script) or as a column list plus row matrix (for the
attachment-merge component, which manipulates column labels).
All definitions are computable so that concrete witnesses evaluate.
-/

set_option maxRecDepth 4096

/-- A pandas cell value: a string, an integer, or the missing value NaN. -/
inductive PValue where
  | str : String → PValue
  | num : Int → PValue
  | missing : PValue
deriving DecidableEq

/-- A row of a dataset: association list from column name to cell value.
A key that is absent models a column the row does not carry; a key bound
to PValue.missing models a present column whose cell is NaN. -/
def Record : Type := List (String × PValue)

instance : DecidableEq Record := by
  unfold Record; infer_instance

instance : Membership (String × PValue) Record := by
  unfold Record; infer_instance

/-- Python str() on a cell value: strings unchanged, integers printed,
NaN prints as the three letters nan. -/
def pyStr : PValue → String
  | .str s => s
  | .num n => toString n
  | .missing => "nan"

/-- Python truthiness of a cell value: the empty string and zero are
falsy; NaN is truthy. -/
def pyTruthy : PValue → Bool
  | .str s => s ≠ ""
  | .num n => n ≠ 0
  | .missing => true

/-- Characters of a string dropped from both ends by Python str.strip(). -/
def stripChars (cs : List Char) : List Char :=
  ((cs.dropWhile Char.isWhitespace).reverse.dropWhile Char.isWhitespace).reverse

/-- Python str.strip(): remove leading and trailing whitespace. -/
def pyStrip (s : String) : String :=
  String.mk (stripChars s.data)

/-- Helper for Python str.split(): walks the character list keeping the
current (reversed) token in the accumulator, emitting a token at each
whitespace run boundary. -/
def splitAux : List Char → List Char → List (List Char)
  | [], [] => []
  | [], a :: acc => [(a :: acc).reverse]
  | c :: rest, acc =>
    if c.isWhitespace then
      match acc with
      | [] => splitAux rest []
      | a :: acc2 => (a :: acc2).reverse :: splitAux rest []
    else
      splitAux rest (c :: acc)

/-- Python str.split() with no argument: split on runs of whitespace,
with no empty tokens produced. -/
def pySplit (s : String) : List String :=
  (splitAux s.data []).map (fun cs => String.mk cs)

/-- Python sep.join(list) for string elements. -/
def pyJoin (sep : String) : List String → String
  | [] => ""
  | [x] => x
  | x :: y :: xs => x ++ sep ++ pyJoin sep (y :: xs)

/-- Python dict assignment d[k] = v on an association list: replace the
binding in place when the key exists, append otherwise. -/
def dictSet : Record → String → PValue → Record
  | [], k, v => [(k, v)]
  | (k2, v2) :: rest, k, v =>
    if k2 = k then (k, v) :: rest else (k2, v2) :: dictSet rest k v

/-- Lookup in a row, mirroring Python dict/Series .get with a default. -/
def rowGetD (r : Record) (c : String) (d : PValue) : PValue :=
  (List.lookup c r).getD d

/-- Python str.strip() called on an arbitrary cell value: succeeds only
on strings, everything else raises AttributeError. -/
def pyStripVal : PValue → Except String String
  | .str s => .ok (pyStrip s)
  | _ => .error "AttributeError: value has no attribute strip"

instance exceptDecEq {ε α : Type} [DecidableEq ε] [DecidableEq α] :
    DecidableEq (Except ε α) := fun x y =>
  match x, y with
  | .error a, .error b =>
    if h : a = b then .isTrue (by rw [h])
    else .isFalse (fun hc => h (Except.error.inj hc))
  | .ok a, .ok b =>
    if h : a = b then .isTrue (by rw [h])
    else .isFalse (fun hc => h (Except.ok.inj hc))
  | .error _, .ok _ => .isFalse (fun hc => Except.noConfusion hc)
  | .ok _, .error _ => .isFalse (fun hc => Except.noConfusion hc)

/-- True exactly on the error constructor of Except. -/
def isError {α : Type} : Except String α → Bool
  | .error _ => true
  | .ok _ => false

/-! ## Role explosion transform (src/specific_scripts/process.py lines 1-42) -/

/-- The role token to column-suffix map of process.py; the Other role
has no suffix. -/
def roleSuffixMap : List (String × String) :=
  [("RA", "_ra"), ("FC", "_fc"), ("Hybrid", "_hyb"), ("Other", "")]

/-- The base columns copied verbatim into each exploded record. -/
def base_columns : List String :=
  ["project_name", "project_location", "pi_name", "pi_add",
   "project_blurb", "hire_role", "hire_role_other", "KEY", "hire_predoc_ra"]

/-- The role-variant column stems of process.py. -/
def column_prefixes : List String :=
  ["number_role", "hire_position_location", "hire_desired_date",
   "position_details_others", "language", "skill_labels",
   "language_stata", "language_r", "language_scto", "language_other",
   "language_bigdata", "language_python"]

/-- Build one exploded record for a recognized role token, mirroring the
body of the inner loop of process.py: copy the base columns that the row
carries, set hire_role (with the blank-override fallback for Other,
whose strip call raises on a non-string value), then copy each
suffix-variant column that is present and non-missing under its stem. -/
def mkNewRow (row : Record) (roleClean suffix : String) : Except String Record :=
  let base : Record :=
    base_columns.filterMap (fun c => (List.lookup c row).map (fun v => (c, v)))
  match (if roleClean = "Other" then
           (pyStripVal (rowGetD row "hire_role_other" (.str ""))).map
             (fun s => if s = "" then "Other" else s)
         else .ok roleClean) with
  | .error e => .error e
  | .ok roleVal =>
    .ok ( column_prefixes.foldl (fun nr p =>
            match List.lookup (p ++ suffix) row with
            | some v => if v = .missing then nr else dictSet nr p v
            | none => nr)
          (dictSet base "hire_role" (.str roleVal)))

/-- Process the role tokens of one row in order, skipping unrecognized
tokens and emitting one record per recognized token. -/
def explodeRoles (row : Record) : List String → Except String (List Record)
  | [] => .ok []
  | role :: rest =>
    match List.lookup (pyStrip role) roleSuffixMap with
    | some suffix =>
      match mkNewRow row (pyStrip role) suffix with
      | .error e => .error e
      | .ok nr =>
        match explodeRoles row rest with
        | .error e => .error e
        | .ok rs => .ok (nr :: rs)
    | none => explodeRoles row rest

/-- Explode one row: split str(row.get(hire_role, empty)) on whitespace
and process each token. -/
def explodeRow (row : Record) : Except String (List Record) :=
  explodeRoles row (pySplit (pyStr (rowGetD row "hire_role" (.str ""))))

/-- The whole explosion loop over the dataframe rows, concatenating the
emitted records in order. -/
def explode : List Record → Except String (List Record)
  | [] => .ok []
  | r :: rs =>
    match explodeRow r with
    | .error e => .error e
    | .ok a =>
      match explode rs with
      | .error e => .error e
      | .ok b => .ok (a ++ b)

/-! ## Country normalization (process.py lines 44-48) -/

/-- Boolean test that the first character list is a leading segment of
the second. -/
def leadsWith : List Char → List Char → Bool
  | [], _ => true
  | _ :: _, [] => false
  | c :: cs, d :: ds => c = d && leadsWith cs ds

/-- Boolean test that the first character list occurs contiguously
inside the second, mirroring the Python in operator on strings. -/
def occursIn : List Char → List Char → Bool
  | needle, [] => needle.isEmpty
  | needle, c :: rest => leadsWith needle (c :: rest) || occursIn needle rest

/-- Stable insertion step for sorting strings by decreasing length,
matching Python sorted with key minus len. -/
def insertByLen (x : String) : List String → List String
  | [] => [x]
  | y :: ys => if x.length < y.length then y :: insertByLen x ys else x :: y :: ys

/-- Stable sort of strings by decreasing length. -/
def sortByLenDesc : List String → List String
  | [] => []
  | x :: xs => insertByLen x (sortByLenDesc xs)

/-- The list comprehension of the country-normalization lambda: every
catalog name (country names plus the Global sentinel), longest first,
that occurs as a substring of str(text). -/
def normalizeLocationList (countryNames : List String) (text : PValue) : List String :=
  (sortByLenDesc (countryNames ++ ["Global"])).filter
    (fun name => occursIn name.data (pyStr text).data)

/-- The country-normalization lambda of process.py: the comma-joined
canonical list. -/
def normalizeLocation (countryNames : List String) (text : PValue) : String :=
  pyJoin ", " (normalizeLocationList countryNames text)

/-! ## Remaining process.py steps (lines 44-53) and the script runner -/

/-- The column set of a dataframe built from a list of row dictionaries:
union of the row keys in order of first appearance. -/
def dfColumns (rows : List Record) : List String :=
  rows.foldl (fun acc r => acc ++ (r.map Prod.fst).filter (fun c => c ∉ acc)) []

/-- Replace every occurrence of a nonempty needle in a character list,
left to right and without overlap, as Python str.replace does. -/
def replaceAll (needle repl : List Char) (hay : List Char) : List Char :=
  match hay with
  | [] => []
  | c :: rest =>
    if h : leadsWith needle (c :: rest) = true ∧ needle ≠ [] then
      repl ++ replaceAll needle repl ((c :: rest).drop needle.length)
    else
      c :: replaceAll needle repl rest
termination_by hay.length
decreasing_by
  · have hn : 0 < needle.length := List.length_pos.mpr h.2
    simp only [List.length_drop, List.length_cons]
    omega
  · simp only [List.length_cons]
    omega

/-- String-level wrapper of replaceAll. -/
def strReplaceAll (s needle repl : String) : String :=
  String.mk (replaceAll needle.data repl.data s.data)

/-- Digits of a decimal literal to a natural number; none when the list
is empty or contains a non-digit. -/
def digitsToNat (cs : List Char) : Option Nat :=
  if cs = [] ∨ ¬ cs.all Char.isDigit then none
  else some (cs.foldl (fun a c => a * 10 + (c.toNat - 48)) 0)

/-- Integer parsing as used by astype(int) on string cells: optional
sign then decimal digits, surrounding whitespace tolerated. -/
def pyParseInt (s : String) : Option Int :=
  match (pyStrip s).data with
  | '-' :: ds => (digitsToNat ds).map (fun n => -(n : Int))
  | '+' :: ds => (digitsToNat ds).map (fun n => (n : Int))
  | ds => (digitsToNat ds).map (fun n => (n : Int))

/-- pandas astype(int) on one cell: integers pass, parseable strings
convert, NaN and non-numeric strings raise. -/
def pyInt : PValue → Except String Int
  | .num n => .ok n
  | .missing => .error "ValueError: cannot convert NaN to integer"
  | .str s =>
    match pyParseInt s with
    | some n => .ok n
    | none => .error "ValueError: invalid literal for int"

/-- The hire_position_location assignment of process.py: reading a
missing column raises KeyError, otherwise every row gets the normalized
comma-joined country list. -/
def countryStep (countryNames : List String) (rows : List Record) :
    Except String (List Record) :=
  if "hire_position_location" ∈ dfColumns rows then
    .ok (rows.map (fun r =>
      dictSet r "hire_position_location"
        (.str (normalizeLocation countryNames (rowGetD r "hire_position_location" .missing)))))
  else .error "KeyError: hire_position_location"

/-- Row-wise integer coercion of the number_role column; the first
non-convertible cell aborts with its error. -/
def astypeRows : List Record → Except String (List Record)
  | [] => .ok []
  | r :: rs =>
    match pyInt (rowGetD r "number_role" .missing) with
    | .error e => .error e
    | .ok n =>
      match astypeRows rs with
      | .error e => .error e
      | .ok rest => .ok (dictSet r "number_role" (.num n) :: rest)

/-- The number_role astype(int) assignment of process.py, including the
KeyError on a missing column. -/
def astypeStep (rows : List Record) : Except String (List Record) :=
  if "number_role" ∈ dfColumns rows then astypeRows rows
  else .error "KeyError: number_role"

/-- The df.replace step: substitute the mojibake apostrophe sequence in
every string cell. -/
def replaceStep (rows : List Record) : List Record :=
  rows.map (fun r => r.map (fun kv =>
    match kv.2 with
    | .str s => (kv.1, PValue.str (String.mk (replaceAll
        [Char.ofNat 8218, Char.ofNat 196, Char.ofNat 244] [Char.ofNat 39] s.data)))
    | v => (kv.1, v)))

/-- The df.loc assignment blanking pi_name where pi_add equals No,
including the KeyError when the pi_add column is absent. -/
def piStep (rows : List Record) : Except String (List Record) :=
  if "pi_add" ∈ dfColumns rows then
    .ok (rows.map (fun r =>
      if rowGetD r "pi_add" .missing = .str "No" then dictSet r "pi_name" (.str "") else r))
  else .error "KeyError: pi_add"

/-- The whole specific script process.py as a fallible table transform,
parametrized by the pycountry country-name catalog (external data). -/
def processScript (countryNames : List String) (df : List Record) :
    Except String (List Record) :=
  match explode df with
  | .error e => .error e
  | .ok r1 =>
    match countryStep countryNames r1 with
    | .error e => .error e
    | .ok r2 =>
      match astypeStep r2 with
      | .error e => .error e
      | .ok r3 =>
        match piStep (replaceStep r3) with
        | .error e => .error e
        | .ok r4 => .ok r4

/-- run_specific_scripts of src/utils.py restricted to the one script of
the repository: run process.py on the dataframe, and on any exception
log it and keep the dataframe the script received. -/
def runSpecificScripts (countryNames : List String) (df : List Record) : List Record :=
  match processScript countryNames df with
  | .ok d => d
  | .error _ => df

/-! ## Attachment merge (src/utils.py merge_attachments) -/

/-- A pandas dataframe at the level the attachment merge manipulates it:
an ordered list of column labels and rows aligned positionally with the
labels. Duplicate labels are possible, exactly as in pandas. -/
structure DFrame where
  cols : List String
  rows : List (List PValue)
deriving DecidableEq

/-- The cell of a positional row under the first column with the given
label, missing when the label is absent. -/
def cellAt (cols : List String) (row : List PValue) (c : String) : PValue :=
  match cols.indexOf? c with
  | some i => row.getD i .missing
  | none => .missing

/-- The rename loop of merge_attachments: for each attachment field in
order, if the dataframe currently has a column of that name, rename
every column of that name to the field followed by the _file suffix. -/
def renameLoop (df : DFrame) (fields : List String) : DFrame :=
  fields.foldl (fun d f =>
    if f ∈ d.cols then
      ⟨d.cols.map (fun c => if c = f then f ++ "_file" else c), d.rows⟩
    else d) df

/-- Column selection df[keep]: project every row onto the given labels. -/
def selectCols (df : DFrame) (keep : List String) : DFrame :=
  ⟨keep, df.rows.map (fun row => keep.map (cellAt df.cols row))⟩

/-- Left-join rows of pd.merge: each left row is paired with every
right row of equal key value, or padded with missing when none match. -/
def joinRows (l r : DFrame) (key : String) (rn : List String) : List (List PValue) :=
  l.rows.foldr (fun lrow acc =>
    let k := cellAt l.cols lrow key
    let ms := r.rows.filter (fun rrow => cellAt r.cols rrow key = k)
    (if ms.isEmpty then [lrow ++ rn.map (fun _ => PValue.missing)]
     else ms.map (fun rrow => lrow ++ rn.map (fun c => cellAt r.cols rrow c))) ++ acc) []

/-- pd.merge on a key with how left: raises when the key is missing on
either side; result columns are the left columns then the right non-key
columns, with pandas suffixes on labels common to both sides. -/
def pdMerge (l r : DFrame) (key : String) : Except String DFrame :=
  if key ∈ l.cols ∧ key ∈ r.cols then
    let rn := r.cols.filter (fun c => c ≠ key)
    let lcols := l.cols.map (fun c => if c ∈ rn then c ++ "_x" else c)
    let rcols := rn.map (fun c => if c ∈ l.cols then c ++ "_y" else c)
    .ok ⟨lcols ++ rcols, joinRows l r key rn⟩
  else .error "KeyError: merge key"

/-- merge_attachments of src/utils.py. The configuration is abstracted
into whether a from_form block exists, the match_on key, the attachment
field list, and the outcome of the secondary fetch plus parse (an error
models any exception raised while fetching or parsing the form). Every
exception inside the try block is caught, so the function is total and
falls back to the current primary dataframe. -/
def mergeAttachments (dfMain : DFrame) (haveFormCfg : Bool) (matchOn : String)
    (fields : List String) (fetchResult : Except String DFrame) : DFrame :=
  if haveFormCfg = false then dfMain
  else
    match fetchResult with
    | .error _ => dfMain
    | .ok dfForm =>
      if matchOn ∈ dfMain.cols ∧ matchOn ∈ dfForm.cols then
        match pdMerge (renameLoop dfMain fields)
            (selectCols dfForm (matchOn :: fields.filter (fun c => c ∈ dfForm.cols)))
            matchOn with
        | .ok merged => merged
        | .error _ => renameLoop dfMain fields
      else dfMain

/-! ## Label resolver (src/utils.py apply_scto_cleaning, get_label,
get_labels_for_multiple) -/

/-- Python dict assignment on an association list with arbitrary key
type: replace in place or append. -/
def setAssoc {κ ν : Type} [DecidableEq κ] : List (κ × ν) → κ → ν → List (κ × ν)
  | [], k, v => [(k, v)]
  | (k2, v2) :: rest, k, v =>
    if k2 = k then (k, v) :: rest else (k2, v2) :: setAssoc rest k v

/-- The label metadata built by apply_scto_cleaning: select_one and
select_multiple field maps (keyed by the raw name cell) and the choice
list map from list_name cell to a code-to-label dictionary. -/
structure LabelInfo where
  selectOne : List (PValue × String)
  selectMultiple : List (PValue × String)
  labelMap : List (PValue × List (String × PValue))
deriving DecidableEq

/-- Python str() applied to Series.get with no default: an absent label
gives None which prints as None. -/
def pyStrOpt : Option PValue → String
  | none => "None"
  | some v => pyStr v

/-- Python str.startswith. -/
def pyStartsWith (s pre : String) : Bool :=
  leadsWith pre.data s.data

/-- The rows of a dataframe as association lists over its columns. -/
def dfRecords (df : DFrame) : List Record :=
  df.rows.map (fun row => df.cols.zip row)

/-- The survey-sheet loop of apply_scto_cleaning: classify each field
whose truthy name and select_one or select_multiple type declare a
choice list, recording the list name with replace and strip applied. -/
def buildSelectMaps (surveyRows : List Record) :
    List (PValue × String) × List (PValue × String) :=
  surveyRows.foldl (fun acc row =>
    match List.lookup "name" row with
    | none => acc
    | some nv =>
      let typeS := pyStrOpt (List.lookup "type" row)
      if pyTruthy nv then
        if pyStartsWith typeS "select_one " then
          (setAssoc acc.1 nv (pyStrip (strReplaceAll typeS "select_one " "")), acc.2)
        else if pyStartsWith typeS "select_multiple " then
          (acc.1, setAssoc acc.2 nv (pyStrip (strReplaceAll typeS "select_multiple " "")))
        else acc
      else acc) ([], [])

/-- Strip one trailing dot-zero, the regex replacement applied to the
value column. -/
def stripDotZero (s : String) : String :=
  match s.data.reverse with
  | '0' :: '.' :: _ => String.mk (s.data.take (s.data.length - 2))
  | _ => s

/-- Add one choices row to the grouped label map: group by the raw
list_name cell, later codes overwriting earlier ones inside a group. -/
def assocUpdate : List (PValue × List (String × PValue)) → PValue → String → PValue →
    List (PValue × List (String × PValue))
  | [], k, c, lab => [(k, [(c, lab)])]
  | (k2, inner) :: rest, k, c, lab =>
    if k2 = k then (k2, setAssoc inner c lab) :: rest
    else (k2, inner) :: assocUpdate rest k c lab

/-- The choices-sheet processing of apply_scto_cleaning: dropping rows
with a missing list_name, value or label (KeyError when a column is
absent from the sheet), normalizing codes with astype(str), the
dot-zero strip and whitespace strip, then grouping into per-list
dictionaries. -/
def buildLabelMapRows (choices : DFrame) :
    Except String (List (PValue × List (String × PValue))) :=
  if "list_name" ∈ choices.cols ∧ "value" ∈ choices.cols ∧ "label" ∈ choices.cols then
    .ok ((dfRecords choices).foldl (fun m row =>
      let ln := rowGetD row "list_name" .missing
      let v := rowGetD row "value" .missing
      let lab := rowGetD row "label" .missing
      if ln = .missing ∨ v = .missing ∨ lab = .missing then m
      else assocUpdate m ln (pyStrip (stripDotZero (pyStr v))) lab) [])
  else .error "KeyError: choices sheet columns"

/-- apply_scto_cleaning of src/utils.py: build the label metadata from
the two form-definition sheets and return the dataset together with it.
The dataframe argument is only passed through. -/
def applySctoCleaning (df : List Record) (survey choices : DFrame) :
    Except String (List Record × LabelInfo) :=
  let maps := buildSelectMaps (dfRecords survey)
  match buildLabelMapRows choices with
  | .error e => .error e
  | .ok lm => .ok (df, ⟨maps.1, maps.2, lm⟩)

/-- get_label of src/utils.py: resolve a single-choice cell through the
choice list of its field, returning the raw value on any miss. -/
def getLabel (field : String) (value : PValue) (li : LabelInfo) : PValue :=
  let m : List (String × PValue) :=
    match List.lookup (PValue.str field) li.selectOne with
    | some ln => (List.lookup (PValue.str ln) li.labelMap).getD []
    | none => []
  (List.lookup (pyStrip (pyStr value)) m).getD value

/-- Check that every element is a string and extract them, as Python
str.join requires. -/
def asStrs : List PValue → Except String (List String)
  | [] => .ok []
  | PValue.str s :: rest => (asStrs rest).map (fun l => s :: l)
  | _ :: _ => .error "TypeError: join expects str"

/-- Python sep.join over cell values: raises unless all are strings. -/
def pyJoinVals (sep : String) (vs : List PValue) : Except String String :=
  (asStrs vs).map (pyJoin sep)

/-- get_labels_for_multiple of src/utils.py: with a bound nonempty list
name and a string value, split the stripped value on whitespace, strip
and resolve each code independently with raw passthrough on a miss, and
join with the fixed separator; otherwise return the value unchanged. -/
def getLabelsForMultiple (field : String) (v : PValue) (li : LabelInfo) :
    Except String PValue :=
  match List.lookup (PValue.str field) li.selectMultiple with
  | none => .ok v
  | some ln =>
    if ln = "" then .ok v
    else
      match v with
      | .str s =>
        let codes := (pySplit (pyStrip s)).map pyStrip
        let resolved := codes.map (fun code =>
          (List.lookup code ((List.lookup (PValue.str ln) li.labelMap).getD [])).getD
            (PValue.str code))
        (pyJoinVals " | " resolved).map PValue.str
      | other => .ok other

/-! ## Concrete instances used by counterexamples and witnesses -/

/-- One-row source table of the end-to-end explosion scenario: roles
field RA Other with a blank string override. -/
def c2table : List Record :=
  [[("hire_role", PValue.str "RA Other"), ("hire_role_other", PValue.str "")]]

/-- A record whose roles field holds the recognized token Other while
the override cell is missing, as pandas yields for an empty cell. -/
def c1row : Record :=
  [("hire_role", PValue.str "Other"), ("hire_role_other", PValue.missing)]

/-- A record exercising the success path of the explosion: two
recognized tokens, one unrecognized token, a variant column present for
RA and absent for FC. -/
def c1wrow : Record :=
  [("hire_role", PValue.str "RA Other Bogus"),
   ("hire_role_other", PValue.str "Advisor"),
   ("number_role_ra", PValue.str "2"),
   ("number_role", PValue.missing)]

/-- One-row table whose exploded number_role value is not numeric. -/
def c4df : List Record :=
  [[("hire_role", PValue.str "RA"),
    ("hire_position_location_ra", PValue.str "India"),
    ("number_role_ra", PValue.str "two")]]

/-- The exploded form of c4df. -/
def c4r1 : List Record :=
  [[("hire_role", PValue.str "RA"),
    ("number_role", PValue.str "two"),
    ("hire_position_location", PValue.str "India")]]

/-- c4r1 after the country-normalization assignment. -/
def c4r2 : List Record :=
  [[("hire_role", PValue.str "RA"),
    ("number_role", PValue.str "two"),
    ("hire_position_location", PValue.str "India")]]

/-- Primary table carrying both an attachment field and its _file
companion, so that the rename step creates a duplicate label. -/
def c5main : DFrame :=
  ⟨["KEY", "doc", "doc_file"], [[PValue.str "k", PValue.str "d", PValue.str "f"]]⟩

/-- Secondary form table for the duplicate-column scenario. -/
def c5form : DFrame :=
  ⟨["KEY", "a", "doc"], [[PValue.str "k", PValue.str "u", PValue.str "v"]]⟩

/-- Primary table for the merge-skip witness. -/
def c6wdf : DFrame := ⟨["KEY", "x"], [[PValue.str "k", PValue.str "v"]]⟩

/-- Primary table for the duplicate-free merge witness. -/
def c5wmain : DFrame :=
  ⟨["KEY", "doc", "note"], [[PValue.str "k", PValue.str "d", PValue.str "n"]]⟩

/-- Secondary table for the duplicate-free merge witness. -/
def c5wform : DFrame :=
  ⟨["KEY", "doc", "photo"], [[PValue.str "k", PValue.str "u", PValue.str "p"]]⟩

/-- Character-level model of joining tokens with a single space, used
to reason about Python split of a joined code list. -/
def joinTok : List (List Char) → List Char
  | [] => []
  | [t] => t
  | t :: t2 :: ts => t ++ ' ' :: joinTok (t2 :: ts)

/-- Label metadata whose choice list maps code a to the label b, itself
a code mapping to c: resolving twice moves on to c. -/
def c8li : LabelInfo :=
  ⟨[(PValue.str "f", "L")], [],
   [(PValue.str "L", [("a", PValue.str "b"), ("b", PValue.str "c")])]⟩

/-- Label metadata whose labels are not themselves codes. -/
def c8wli : LabelInfo :=
  ⟨[(PValue.str "f", "L")], [],
   [(PValue.str "L", [("a", PValue.str "Apple")])]⟩

/-- Label metadata for the multi-choice ordering witness. -/
def c7li : LabelInfo :=
  ⟨[], [(PValue.str "mf", "L")],
   [(PValue.str "L", [("a", PValue.str "Apple"), ("b", PValue.str "Banana")])]⟩

/-- The recognized role tokens of a record: the whitespace-split tokens
of its roles field whose stripped form is a key of roleSuffixMap, in
order and with multiplicity. -/
def recognizedTokens (row : Record) : List String :=
  (pySplit (pyStr (rowGetD row "hire_role" (.str "")))).filter
    (fun t => (List.lookup (pyStrip t) roleSuffixMap).isSome)

/-- A record with the Other token and a missing override cell, used to
exhibit the non-total fallback. -/
def c9row : Record :=
  [("hire_role", PValue.str "FC Other"), ("hire_role_other", PValue.missing)]

/-- Dataset for the metadata-extraction witness. -/
def c10wdf : List Record := [[("x", PValue.str "1")]]

/-- Empty survey sheet for the metadata-extraction witness. -/
def c10wsurvey : DFrame := ⟨["name", "type"], []⟩

/-- Empty choices sheet with the three required columns. -/
def c10wchoices : DFrame := ⟨["list_name", "value", "label"], []⟩

/-! ## Claim theorems -/

/-- C2: on a one-row source table with roles RA Other and a blank
string override, the explosion emits exactly two records, the first
with role RA and the second with the literal fallback Other. -/
theorem c2_end_to_end_explosion :
    explode c2table
        = .ok [[("hire_role", PValue.str "RA"), ("hire_role_other", PValue.str "")],
               [("hire_role", PValue.str "Other"), ("hire_role_other", PValue.str "")]]
      ∧ (explode c2table).map List.length = .ok 2 := by
  decide

/-- C1 counterexample: a record whose roles field holds exactly one
recognized token (Other) but whose override cell is missing makes the
explosion raise instead of emitting one record, refuting the claim as
universally stated. -/
theorem c1_counterexample_missing_override :
    isError (explodeRow c1row) = true := by decide

/-- C3 counterexample: with catalog names India and British India and
the text British India, the normalized output also contains the shorter
name India, which occurs in the text only inside the longer match. -/
theorem c3_counterexample_shorter_name_kept :
    normalizeLocationList ["India", "British India"] (.str "British India")
        = ["British India", "India"]
      ∧ "India" ∈ normalizeLocationList ["India", "British India"] (.str "British India")
      ∧ occursIn "India".data "British India".data = true := by
  decide

/-- C4 counterexample: on a table whose exploded number_role is the
word two, the script raises, but run_specific_scripts catches the error
and returns the input table unchanged; the pipeline run is not aborted
and no error surfaces to the caller. -/
theorem c4_counterexample_error_is_caught :
    isError (processScript ["India"] c4df) = true
      ∧ runSpecificScripts ["India"] c4df = c4df := by
  decide

/-- C5 counterexample: with attachment fields a and doc and a primary
table already carrying both doc and doc_file, the rename step produces
two doc_file columns, so the merged table has duplicate column names. -/
theorem c5_counterexample_duplicate_columns :
    (mergeAttachments c5main true "KEY" ["a", "doc"] (.ok c5form)).cols
        = ["KEY", "doc_file", "doc_file", "a", "doc"]
      ∧ ¬ (mergeAttachments c5main true "KEY" ["a", "doc"] (.ok c5form)).cols.Nodup := by
  decide

/-- C8 counterexample: with the choice list mapping a to b and b to c,
the code a resolves to b, and resolving again yields c, so single-choice
resolution is not idempotent on codes present in the list. -/
theorem c8_counterexample_label_is_a_code :
    getLabel "f" (getLabel "f" (PValue.str "a") c8li) c8li
        ≠ getLabel "f" (PValue.str "a") c8li := by
  decide

/-- C6: whenever the secondary fetch raises, or the join key is absent
from the primary table or from the fetched secondary table, the
attachment merge returns the primary table unmodified; the function is
total, so no exception propagates to the caller. -/
theorem c6_merge_skip_returns_input (dfMain : DFrame) (b : Bool) (matchOn : String)
    (fields : List String) (fetch : Except String DFrame)
    (h : isError fetch = true ∨ matchOn ∉ dfMain.cols
          ∨ ∀ g, fetch = .ok g → matchOn ∉ g.cols) :
    mergeAttachments dfMain b matchOn fields fetch = dfMain := by
  unfold mergeAttachments
  cases b with
  | false => simp
  | true =>
    cases fetch with
    | error e => simp
    | ok g =>
      rcases h with h | h | h
      · simp [isError] at h
      · simp [h]
      · have hg := h g rfl
        simp [hg]

/-- C6 witness: a failing fetch leaves a concrete primary table
untouched. -/
theorem c6_witness :
    isError (Except.error "network" : Except String DFrame) = true
      ∧ mergeAttachments c6wdf true "KEY" ["doc"] (.error "network") = c6wdf :=
  ⟨rfl, c6_merge_skip_returns_input c6wdf true "KEY" ["doc"] (.error "network") (Or.inl rfl)⟩

/-- C10: whenever apply_scto_cleaning returns, the first component of
its result is the input dataset itself; only the label metadata is
newly built. -/
theorem c10_cleaning_returns_dataset_unchanged (df : List Record) (survey choices : DFrame)
    (res : List Record × LabelInfo)
    (h : applySctoCleaning df survey choices = .ok res) :
    res.1 = df := by
  unfold applySctoCleaning at h
  cases hb : buildLabelMapRows choices with
  | error e => rw [hb] at h; exact absurd h (by simp)
  | ok lm =>
    rw [hb] at h
    have h2 := Except.ok.inj h
    rw [← h2]

/-- C10 witness: the passthrough observed on a concrete dataset and
form definition. -/
theorem c10_witness :
    applySctoCleaning c10wdf c10wsurvey c10wchoices = .ok (c10wdf, ⟨[], [], []⟩)
      ∧ (c10wdf, (⟨[], [], []⟩ : LabelInfo)).1 = c10wdf :=
  ⟨by decide,
   c10_cleaning_returns_dataset_unchanged c10wdf c10wsurvey c10wchoices
     (c10wdf, ⟨[], [], []⟩) (by decide)⟩

/-- C8 amended: single-choice resolution is idempotent for a code of
the choice list provided the label of that code is not itself a code of
the list; the counterexample shows the proviso is needed. -/
theorem c8_amended_idempotent_unless_label_is_code (li : LabelInfo) (field ln code : String)
    (m : List (String × PValue)) (L : PValue)
    (h1 : List.lookup (PValue.str field) li.selectOne = some ln)
    (h2 : List.lookup (PValue.str ln) li.labelMap = some m)
    (h3 : List.lookup (pyStrip code) m = some L)
    (h4 : List.lookup (pyStrip (pyStr L)) m = none) :
    getLabel field (getLabel field (.str code) li) li
      = getLabel field (.str code) li := by
  have e1 : pyStr (PValue.str code) = code := rfl
  unfold getLabel
  simp only [h1, h2, Option.getD_some, e1, h3, h4, Option.getD_none]

/-- C8 amended witness: with the list mapping a to Apple, resolving
twice equals resolving once. -/
theorem c8_witness :
    List.lookup (PValue.str "f") c8wli.selectOne = some "L"
      ∧ List.lookup (PValue.str "L") c8wli.labelMap = some [("a", PValue.str "Apple")]
      ∧ List.lookup (pyStrip "a") [("a", PValue.str "Apple")] = some (PValue.str "Apple")
      ∧ List.lookup (pyStrip (pyStr (PValue.str "Apple"))) [("a", PValue.str "Apple")] = none
      ∧ getLabel "f" (getLabel "f" (.str "a") c8wli) c8wli = getLabel "f" (.str "a") c8wli :=
  ⟨by decide, by decide, by decide, by decide,
   c8_amended_idempotent_unless_label_is_code c8wli "f" "L" "a"
     [("a", PValue.str "Apple")] (PValue.str "Apple")
     (by decide) (by decide) (by decide) (by decide)⟩

/-! ## Lemmas about dict assignment and the explosion loop -/

theorem lookup_cons_eqv {β : Type} (a k : String) (b : β) (es : List (String × β)) :
    List.lookup a ((k, b) :: es) = if a = k then some b else List.lookup a es := by
  rw [List.lookup_cons]
  by_cases h : a = k
  · subst h
    simp
  · have hb : (a == k) = false := beq_eq_false_iff_ne.mpr h
    rw [hb, if_neg h]

theorem lookup_dictSet_self (d : List (String × PValue)) (k : String) (v : PValue) :
    List.lookup k (dictSet d k v) = some v := by
  induction d with
  | nil => simp [dictSet, lookup_cons_eqv]
  | cons kv rest ih =>
    obtain ⟨k2, v2⟩ := kv
    by_cases h : k2 = k
    · subst h
      simp [dictSet, lookup_cons_eqv]
    · simp only [dictSet, if_neg h]
      rw [lookup_cons_eqv, if_neg (fun hx => h hx.symm)]
      exact ih

theorem lookup_dictSet_ne (d : List (String × PValue)) (k q : String) (v : PValue)
    (h : q ≠ k) :
    List.lookup q (dictSet d k v) = List.lookup q d := by
  induction d with
  | nil => simp [dictSet, lookup_cons_eqv, h]
  | cons kv rest ih =>
    obtain ⟨k2, v2⟩ := kv
    by_cases h2 : k2 = k
    · subst h2
      have hd : dictSet ((k2, v2) :: rest) k2 v = (k2, v) :: rest := by
        simp [dictSet]
      rw [hd, lookup_cons_eqv, lookup_cons_eqv, if_neg h, if_neg h]
    · simp only [dictSet, if_neg h2]
      rw [lookup_cons_eqv, lookup_cons_eqv]
      by_cases h3 : q = k2
      · rw [if_pos h3, if_pos h3]
      · rw [if_neg h3, if_neg h3]
        exact ih

theorem lookup_filterMap_none (row : List (String × PValue)) :
    ∀ (l : List String) (p : String), p ∉ l →
      List.lookup p (l.filterMap (fun c => (List.lookup c row).map (fun v => (c, v)))) = none := by
  intro l
  induction l with
  | nil => intro p hp; rfl
  | cons c cs ih =>
    intro p hp
    have hpc : p ≠ c := fun hx => hp (hx ▸ List.mem_cons_self c cs)
    have hp2 : p ∉ cs := fun hx => hp (List.mem_cons_of_mem c hx)
    rw [List.filterMap_cons]
    cases hl : List.lookup c row with
    | none =>
      simp only [Option.map_none']
      exact ih p hp2
    | some v =>
      simp only [Option.map_some']
      rw [lookup_cons_eqv, if_neg hpc]
      exact ih p hp2

theorem explodeFold_preserve (row : List (String × PValue)) (suffix : String) :
    ∀ (ps : List String) (start : List (String × PValue)) (q : String), q ∉ ps →
      List.lookup q (ps.foldl (fun nr p =>
          match List.lookup (p ++ suffix) row with
          | some v => if v = .missing then nr else dictSet nr p v
          | none => nr) start)
        = List.lookup q start := by
  intro ps
  induction ps with
  | nil => intro start q _; rfl
  | cons p ps ih =>
    intro start q h
    have hq : q ≠ p := fun hx => h (hx ▸ List.mem_cons_self p ps)
    have hq2 : q ∉ ps := fun hx => h (List.mem_cons_of_mem p hx)
    rw [List.foldl_cons, ih _ q hq2]
    cases hl : List.lookup (p ++ suffix) row with
    | none => rfl
    | some v =>
      by_cases hv : v = .missing
      · simp [hv]
      · simp [hv, lookup_dictSet_ne start p q v hq]

theorem explodeFold_lookup (row : List (String × PValue)) (suffix : String) :
    ∀ (ps : List String) (start : List (String × PValue)), ps.Nodup →
      (∀ q ∈ ps, List.lookup q start = none) →
      ∀ p ∈ ps,
        List.lookup p (ps.foldl (fun nr p2 =>
            match List.lookup (p2 ++ suffix) row with
            | some v => if v = .missing then nr else dictSet nr p2 v
            | none => nr) start)
          = match List.lookup (p ++ suffix) row with
            | some v => if v = .missing then none else some v
            | none => none := by
  intro ps
  induction ps with
  | nil => intro start _ _ p hp; exact absurd hp (List.not_mem_nil p)
  | cons q ps ih =>
    intro start hnd hstart p hp
    rw [List.foldl_cons]
    have hqps : q ∉ ps := (List.nodup_cons.mp hnd).1
    have hnd2 : ps.Nodup := (List.nodup_cons.mp hnd).2
    rcases List.mem_cons.mp hp with rfl | hp2
    · rw [explodeFold_preserve row suffix ps _ p hqps]
      have h0 : List.lookup p start = none := hstart p (List.mem_cons_self p ps)
      cases hl : List.lookup (p ++ suffix) row with
      | none => exact h0
      | some v =>
        by_cases hv : v = .missing
        · simp [hv, h0]
        · simp [hv, lookup_dictSet_self]
    · apply ih _ hnd2 _ p hp2
      intro q2 hq2
      have h0 : List.lookup q2 start = none := hstart q2 (List.mem_cons_of_mem q hq2)
      have hq2q : q2 ≠ q := fun hx => hqps (hx ▸ hq2)
      cases hl : List.lookup (q ++ suffix) row with
      | none => exact h0
      | some v =>
        by_cases hv : v = .missing
        · simp [hv, h0]
        · simp [hv, lookup_dictSet_ne start q q2 v hq2q, h0]

theorem prefixesFresh : ∀ q ∈ column_prefixes, q ≠ "hire_role" ∧ q ∉ base_columns := by
  decide

theorem prefixesNodup : column_prefixes.Nodup := by decide

/-- Success and column contract of one exploded record, for any role
whose Other fallback can strip a string. -/
theorem mkNewRow_spec (row : List (String × PValue)) (roleClean suffix : String)
    (hrole : roleClean = "Other" → ∃ s, rowGetD row "hire_role_other" (.str "") = .str s) :
    ∃ nr, mkNewRow row roleClean suffix = .ok nr ∧ ∀ p ∈ column_prefixes,
      List.lookup p nr = match List.lookup (p ++ suffix) row with
        | some v => if v = .missing then none else some v
        | none => none := by
  have hstart : ∀ (rv : String) (q : String), q ∈ column_prefixes →
      List.lookup q (dictSet
        (base_columns.filterMap (fun c => (List.lookup c row).map (fun v => (c, v))))
        "hire_role" (.str rv)) = none := by
    intro rv q hq
    rw [lookup_dictSet_ne _ _ _ _ (prefixesFresh q hq).1]
    exact lookup_filterMap_none row base_columns q (prefixesFresh q hq).2
  unfold mkNewRow
  by_cases hc : roleClean = "Other"
  · obtain ⟨s, hs⟩ := hrole hc
    rw [if_pos hc, hs]
    refine ⟨_, rfl, ?_⟩
    intro p hp
    exact explodeFold_lookup row suffix column_prefixes _ prefixesNodup
      (hstart _) p hp
  · rw [if_neg hc]
    refine ⟨_, rfl, ?_⟩
    intro p hp
    exact explodeFold_lookup row suffix column_prefixes _ prefixesNodup
      (hstart _) p hp

/-- Success and column contract of the token loop: one record per
recognized token, in order. -/
theorem explodeRoles_spec (row : List (String × PValue)) (toks : List String)
    (h : ∀ t ∈ toks, pyStrip t = "Other" →
          ∃ s, rowGetD row "hire_role_other" (.str "") = .str s) :
    ∃ out, explodeRoles row toks = .ok out ∧
      List.Forall₂ (fun t nr => ∀ p ∈ column_prefixes,
          List.lookup p nr
            = match List.lookup (p ++ (List.lookup (pyStrip t) roleSuffixMap).getD "") row with
              | some v => if v = .missing then none else some v
              | none => none)
        (toks.filter (fun t => (List.lookup (pyStrip t) roleSuffixMap).isSome)) out := by
  induction toks with
  | nil => exact ⟨[], rfl, List.Forall₂.nil⟩
  | cons t rest ih =>
    have hrest : ∀ t2 ∈ rest, pyStrip t2 = "Other" →
        ∃ s, rowGetD row "hire_role_other" (.str "") = .str s :=
      fun t2 ht2 => h t2 (List.mem_cons_of_mem t ht2)
    obtain ⟨out, hout, hfa⟩ := ih hrest
    cases hl : List.lookup (pyStrip t) roleSuffixMap with
    | none =>
      refine ⟨out, ?_, ?_⟩
      · rw [explodeRoles, hl]
        exact hout
      · rw [List.filter_cons_of_neg (by simp [hl])]
        exact hfa
    | some suffix =>
      obtain ⟨nr, hnr, hspec⟩ := mkNewRow_spec row (pyStrip t) suffix
        (h t (List.mem_cons_self t rest))
      refine ⟨nr :: out, ?_, ?_⟩
      · rw [explodeRoles, hl]
        simp only [hnr, hout]
      · rw [List.filter_cons_of_pos (by simp [hl])]
        refine List.Forall₂.cons ?_ hfa
        intro p hp
        rw [hl]
        exact hspec p hp

theorem mkNewRow_error_of_missing (row : List (String × PValue))
    (h : rowGetD row "hire_role_other" (.str "") = .missing) :
    mkNewRow row "Other" "" = .error "AttributeError: value has no attribute strip" := by
  unfold mkNewRow
  rw [if_pos rfl, h]
  rfl

/-- The token loop raises whenever an Other token is reached while the
override cell is missing. -/
theorem explodeRoles_error (row : List (String × PValue)) (toks : List String)
    (h1 : ∃ t ∈ toks, pyStrip t = "Other")
    (h2 : rowGetD row "hire_role_other" (.str "") = .missing) :
    isError (explodeRoles row toks) = true := by
  revert h1
  induction toks with
  | nil =>
    intro h1
    obtain ⟨t, ht, _⟩ := h1
    exact absurd ht (List.not_mem_nil t)
  | cons t rest ih =>
    intro h1
    by_cases hO : pyStrip t = "Other"
    · rw [explodeRoles, hO]
      have hl : List.lookup "Other" roleSuffixMap = some "" := by decide
      rw [hl]
      simp only [mkNewRow_error_of_missing row h2]
      rfl
    · rcases h1 with ⟨t2, ht2, hO2⟩
      have ht2r : t2 ∈ rest := by
        rcases List.mem_cons.mp ht2 with rfl | hr
        · exact absurd hO2 hO
        · exact hr
      have ihe := ih ⟨t2, ht2r, hO2⟩
      cases hl : List.lookup (pyStrip t) roleSuffixMap with
      | none =>
        rw [explodeRoles, hl]
        exact ihe
      | some suffix =>
        obtain ⟨nr, hnr, _⟩ := mkNewRow_spec row (pyStrip t) suffix
          (fun hx => absurd hx hO)
        rw [explodeRoles, hl]
        simp only [hnr]
        cases he : explodeRoles row rest with
        | error e => rfl
        | ok o =>
          rw [he] at ihe
          exact absurd ihe (by simp [isError])

/-- C1 amended: provided that, whenever the roles field contains a
token stripping to Other, the hire_role_other value is a string (as it
always is when the column is absent), the explosion emits exactly one
record per recognized token, in order, and in each emitted record every
configured column stem holds the source value of the stem plus the role
suffix exactly when that column is present and non-missing, and the key
is absent otherwise. The counterexample shows the string-override
proviso is needed. -/
theorem c1_amended_role_explosion (row : Record)
    (h : ∀ t ∈ pySplit (pyStr (rowGetD row "hire_role" (.str ""))), pyStrip t = "Other" →
          ∃ s, rowGetD row "hire_role_other" (.str "") = .str s) :
    ∃ out, explodeRow row = .ok out ∧ out.length = (recognizedTokens row).length ∧
      List.Forall₂ (fun t nr => ∀ p ∈ column_prefixes,
          List.lookup p nr
            = match List.lookup (p ++ (List.lookup (pyStrip t) roleSuffixMap).getD "") row with
              | some v => if v = PValue.missing then none else some v
              | none => none)
        (recognizedTokens row) out := by
  obtain ⟨out, hout, hfa⟩ := explodeRoles_spec row _ h
  exact ⟨out, hout, (List.Forall₂.length_eq hfa).symm, hfa⟩

/-- C1 amended witness: a record with tokens RA, Other and an
unrecognized token, a variant column present for RA and one missing. -/
theorem c1_witness :
    (∀ t ∈ pySplit (pyStr (rowGetD c1wrow "hire_role" (.str ""))), pyStrip t = "Other" →
        ∃ s, rowGetD c1wrow "hire_role_other" (.str "") = .str s)
    ∧ ∃ out, explodeRow c1wrow = .ok out ∧ out.length = (recognizedTokens c1wrow).length ∧
        List.Forall₂ (fun t nr => ∀ p ∈ column_prefixes,
            List.lookup p nr
              = match List.lookup (p ++ (List.lookup (pyStrip t) roleSuffixMap).getD "") c1wrow with
                | some v => if v = PValue.missing then none else some v
                | none => none)
          (recognizedTokens c1wrow) out :=
  ⟨fun _ _ _ => ⟨"Advisor", by decide⟩,
   c1_amended_role_explosion c1wrow (fun _ _ _ => ⟨"Advisor", by decide⟩)⟩

/-- C9: the Other fallback is total exactly for string override values:
when every Other token can strip a string override the explosion
completes, and when an Other token is present while the override cell
is missing (NaN, as pandas yields for an empty cell) the transform
raises instead of emitting a row. -/
theorem c9_other_fallback_totality (row : Record) :
    ((∀ t ∈ pySplit (pyStr (rowGetD row "hire_role" (.str ""))), pyStrip t = "Other" →
        ∃ s, rowGetD row "hire_role_other" (.str "") = .str s) →
      ∃ out, explodeRow row = .ok out)
    ∧ ((∃ t ∈ pySplit (pyStr (rowGetD row "hire_role" (.str ""))), pyStrip t = "Other") →
        rowGetD row "hire_role_other" (.str "") = .missing →
        isError (explodeRow row) = true) := by
  constructor
  · intro h
    obtain ⟨out, hout, _⟩ := explodeRoles_spec row _ h
    exact ⟨out, hout⟩
  · intro h1 h2
    exact explodeRoles_error row _ h1 h2

/-- C9 witness: a record with roles FC Other and a missing override
cell makes the explosion raise. -/
theorem c9_witness :
    (∃ t ∈ pySplit (pyStr (rowGetD c9row "hire_role" (.str ""))), pyStrip t = "Other")
      ∧ rowGetD c9row "hire_role_other" (.str "") = .missing
      ∧ isError (explodeRow c9row) = true :=
  ⟨by decide, by decide, (c9_other_fallback_totality c9row).2 (by decide) (by decide)⟩

/-! ## Lemmas for the country normalization -/

theorem leadsWith_iff (n : List Char) :
    ∀ h : List Char, leadsWith n h = true ↔ n <+: h := by
  induction n with
  | nil =>
    intro h
    simp [leadsWith, List.nil_prefix]
  | cons c cs ih =>
    intro h
    cases h with
    | nil => simp [leadsWith, List.prefix_nil]
    | cons d ds =>
      simp [leadsWith, List.cons_prefix_cons, ih ds]

theorem occursIn_iff (n : List Char) :
    ∀ h : List Char, occursIn n h = true ↔ n <:+: h := by
  intro h
  induction h with
  | nil => simp [occursIn, List.infix_nil, List.isEmpty_iff]
  | cons c rest ih =>
    rw [occursIn, List.infix_cons_iff]
    simp [leadsWith_iff, ih]

theorem mem_insertByLen (a x : String) :
    ∀ l : List String, a ∈ insertByLen x l ↔ a = x ∨ a ∈ l := by
  intro l
  induction l with
  | nil => simp [insertByLen]
  | cons y ys ih =>
    rw [insertByLen]
    by_cases h : x.length < y.length
    · rw [if_pos h]
      simp only [List.mem_cons, ih]
      tauto
    · rw [if_neg h]
      simp

theorem mem_sortByLenDesc (a : String) :
    ∀ l : List String, a ∈ sortByLenDesc l ↔ a ∈ l := by
  intro l
  induction l with
  | nil => simp [sortByLenDesc]
  | cons x xs ih =>
    rw [sortByLenDesc, mem_insertByLen]
    simp [ih]

/-- C3 amended: the normalization keeps every catalog name occurring in
the text; when one catalog name occurs inside another and the longer
occurs in the text, the output contains the longer name and also the
shorter one (the longest-first sort affects order only). -/
theorem c3_amended_all_matches_kept (cs : List String) (text : PValue) (n1 n2 : String)
    (h1 : n1 ∈ cs) (h2 : n2 ∈ cs)
    (h12 : occursIn n1.data n2.data = true)
    (h2t : occursIn n2.data (pyStr text).data = true) :
    n2 ∈ normalizeLocationList cs text ∧ n1 ∈ normalizeLocationList cs text := by
  have h1t : occursIn n1.data (pyStr text).data = true :=
    (occursIn_iff n1.data (pyStr text).data).mpr
      (((occursIn_iff n1.data n2.data).mp h12).trans
        ((occursIn_iff n2.data (pyStr text).data).mp h2t))
  constructor
  · unfold normalizeLocationList
    rw [List.mem_filter]
    exact ⟨(mem_sortByLenDesc n2 _).mpr (List.mem_append_left _ h2), h2t⟩
  · unfold normalizeLocationList
    rw [List.mem_filter]
    exact ⟨(mem_sortByLenDesc n1 _).mpr (List.mem_append_left _ h1), h1t⟩

/-- C3 amended witness: with catalog names India and British India and
a text containing British India, both names appear in the output. -/
theorem c3_witness :
    "India" ∈ ["India", "British India"]
      ∧ "British India" ∈ ["India", "British India"]
      ∧ occursIn "India".data "British India".data = true
      ∧ occursIn "British India".data (pyStr (.str "An office in British India")).data = true
      ∧ "British India" ∈ normalizeLocationList ["India", "British India"]
          (.str "An office in British India")
      ∧ "India" ∈ normalizeLocationList ["India", "British India"]
          (.str "An office in British India") := by
  have h := c3_amended_all_matches_kept ["India", "British India"]
    (.str "An office in British India") "India" "British India"
    (by decide) (by decide) (by decide) (by decide)
  exact ⟨by decide, by decide, by decide, by decide, h.1, h.2⟩

/-! ## Lemmas for the numeric-coercion failure -/

theorem astypeRows_error (rows : List Record)
    (h : ∃ r ∈ rows, isError (pyInt (rowGetD r "number_role" .missing)) = true) :
    isError (astypeRows rows) = true := by
  revert h
  induction rows with
  | nil =>
    intro h
    obtain ⟨r, hr, _⟩ := h
    exact absurd hr (List.not_mem_nil r)
  | cons r rs ih =>
    intro h
    cases hp : pyInt (rowGetD r "number_role" .missing) with
    | error e =>
      rw [astypeRows, hp]
      rfl
    | ok n =>
      obtain ⟨r2, hr2, he⟩ := h
      have hr2s : r2 ∈ rs := by
        rcases List.mem_cons.mp hr2 with rfl | hs
        · rw [hp] at he
          exact absurd he (by simp [isError])
        · exact hs
      have ihe := ih ⟨r2, hr2s, he⟩
      rw [astypeRows, hp]
      cases hrec : astypeRows rs with
      | error e => rfl
      | ok o =>
        rw [hrec] at ihe
        exact absurd ihe (by simp [isError])

/-- C4 amended: on a run whose exploded and country-normalized table
has a non-numeric number_role value, the coercion step raises, the
whole script run errors and its table is discarded, but the runner
catches the error and passes the input table through unchanged; the
pipeline run continues and nothing propagates to the caller. -/
theorem c4_amended_error_caught_table_unchanged (catalog : List String)
    (df rows rows2 : List Record)
    (h1 : explode df = .ok rows)
    (h2 : countryStep catalog rows = .ok rows2)
    (h3 : ∃ r ∈ rows2, isError (pyInt (rowGetD r "number_role" .missing)) = true) :
    isError (processScript catalog df) = true
      ∧ runSpecificScripts catalog df = df := by
  have hast : isError (astypeStep rows2) = true := by
    unfold astypeStep
    by_cases hc : "number_role" ∈ dfColumns rows2
    · rw [if_pos hc]
      exact astypeRows_error rows2 h3
    · rw [if_neg hc]
      rfl
  have hps : isError (processScript catalog df) = true := by
    unfold processScript
    simp only [h1, h2]
    cases ha : astypeStep rows2 with
    | error e => rfl
    | ok o =>
      rw [ha] at hast
      exact absurd hast (by simp [isError])
  refine ⟨hps, ?_⟩
  unfold runSpecificScripts
  cases hp : processScript catalog df with
  | error e => rfl
  | ok d =>
    rw [hp] at hps
    exact absurd hps (by simp [isError])

/-- C4 amended witness: the concrete run with the word two as the role
count errors at the coercion step and the runner keeps the input. -/
theorem c4_witness :
    explode c4df = .ok c4r1
      ∧ countryStep ["India"] c4r1 = .ok c4r2
      ∧ (∃ r ∈ c4r2, isError (pyInt (rowGetD r "number_role" .missing)) = true)
      ∧ (isError (processScript ["India"] c4df) = true
          ∧ runSpecificScripts ["India"] c4df = c4df) :=
  ⟨by decide, by decide, by decide,
   c4_amended_error_caught_table_unchanged ["India"] c4df c4r1 c4r2
     (by decide) (by decide) (by decide)⟩

/-! ## Lemmas for the attachment merge -/

theorem strAppend_cancel_right {a b : String} (s : String) (h : a ++ s = b ++ s) :
    a = b := by
  apply String.ext
  have hd := congrArg String.data h
  rw [String.data_append, String.data_append] at hd
  exact List.append_cancel_right hd

theorem strAppendFile_ne (c : String) : c ++ "_file" ≠ c := by
  intro h
  have hd : (c ++ "_file").data = c.data := congrArg String.data h
  rw [String.data_append] at hd
  have hlen := congrArg List.length hd
  simp [List.length_append] at hlen

/-- The rename loop acts on the column labels as the one-pass rename of
every attachment-field label to its _file form, provided no field is
the _file form of another field (no cascading renames); rows are
untouched. -/
theorem renameLoop_cols (fields : List String) :
    ∀ df : DFrame, (∀ f ∈ fields, f ++ "_file" ∉ fields) →
      (renameLoop df fields).cols
          = df.cols.map (fun c => if c ∈ fields then c ++ "_file" else c)
        ∧ (renameLoop df fields).rows = df.rows := by
  induction fields with
  | nil =>
    intro df _
    constructor
    · simp [renameLoop]
    · rfl
  | cons f fs ih =>
    intro df h
    have hffs : f ++ "_file" ∉ f :: fs := h f (List.mem_cons_self f fs)
    have hfs : ∀ g ∈ fs, g ++ "_file" ∉ fs := fun g hg hx =>
      h g (List.mem_cons_of_mem f hg) (List.mem_cons_of_mem f hx)
    have hstep : renameLoop df (f :: fs)
        = renameLoop (if f ∈ df.cols then
            ⟨df.cols.map (fun c => if c = f then f ++ "_file" else c), df.rows⟩
          else df) fs := rfl
    by_cases hf : f ∈ df.cols
    · rw [if_pos hf] at hstep
      rw [hstep]
      obtain ⟨hc, hr⟩ :=
        ih ⟨df.cols.map (fun c => if c = f then f ++ "_file" else c), df.rows⟩ hfs
      refine ⟨?_, hr⟩
      rw [hc]
      show (df.cols.map (fun c => if c = f then f ++ "_file" else c)).map
          (fun c => if c ∈ fs then c ++ "_file" else c)
        = df.cols.map (fun c => if c ∈ f :: fs then c ++ "_file" else c)
      rw [List.map_map]
      apply List.map_congr_left
      intro c hcmem
      simp only [Function.comp]
      by_cases hcf : c = f
      · subst hcf
        rw [if_pos rfl]
        have hnot : c ++ "_file" ∉ fs := fun hx => hffs (List.mem_cons_of_mem c hx)
        rw [if_neg hnot, if_pos (List.mem_cons_self c fs)]
      · rw [if_neg hcf]
        by_cases hcfs : c ∈ fs
        · rw [if_pos hcfs, if_pos (List.mem_cons_of_mem f hcfs)]
        · rw [if_neg hcfs, if_neg (by simp [hcf, hcfs])]
    · rw [if_neg hf] at hstep
      rw [hstep]
      obtain ⟨hc, hr⟩ := ih df hfs
      refine ⟨?_, hr⟩
      rw [hc]
      apply List.map_congr_left
      intro c hcmem
      have hcf : c ≠ f := fun hx => hf (hx ▸ hcmem)
      by_cases hcfs : c ∈ fs
      · rw [if_pos hcfs, if_pos (List.mem_cons_of_mem f hcfs)]
      · rw [if_neg hcfs, if_neg (by simp [hcf, hcfs])]

theorem pdMerge_ok (l r : DFrame) (key : String) (hl : key ∈ l.cols) (hr : key ∈ r.cols) :
    pdMerge l r key
      = .ok ⟨l.cols.map (fun c =>
            if c ∈ r.cols.filter (fun c2 => c2 ≠ key) then c ++ "_x" else c)
          ++ (r.cols.filter (fun c2 => c2 ≠ key)).map (fun c =>
            if c ∈ l.cols then c ++ "_y" else c),
        joinRows l r key (r.cols.filter (fun c2 => c2 ≠ key))⟩ := by
  unfold pdMerge
  rw [if_pos ⟨hl, hr⟩]

theorem mergeAttachments_eq_merge (dfMain dfForm : DFrame) (matchOn : String)
    (fields : List String) (h67 : matchOn ∈ dfMain.cols ∧ matchOn ∈ dfForm.cols) :
    mergeAttachments dfMain true matchOn fields (.ok dfForm)
      = match pdMerge (renameLoop dfMain fields)
            (selectCols dfForm (matchOn :: fields.filter (fun c => c ∈ dfForm.cols)))
            matchOn with
        | .ok merged => merged
        | .error _ => renameLoop dfMain fields := by
  unfold mergeAttachments
  rw [if_neg (by simp)]
  show (if matchOn ∈ dfMain.cols ∧ matchOn ∈ dfForm.cols then
      match pdMerge (renameLoop dfMain fields)
          (selectCols dfForm (matchOn :: fields.filter (fun c => c ∈ dfForm.cols)))
          matchOn with
      | .ok merged => merged
      | .error _ => renameLoop dfMain fields
    else dfMain) = _
  rw [if_pos h67]

theorem mergeAttachments_ok_cols (dfMain dfForm : DFrame) (matchOn : String)
    (fields : List String) (h67 : matchOn ∈ dfMain.cols ∧ matchOn ∈ dfForm.cols)
    (hmL : matchOn ∈ (renameLoop dfMain fields).cols) :
    (mergeAttachments dfMain true matchOn fields (.ok dfForm)).cols
      = (renameLoop dfMain fields).cols.map (fun c =>
          if c ∈ ((selectCols dfForm (matchOn :: fields.filter (fun c => c ∈ dfForm.cols))).cols.filter
              (fun c2 => c2 ≠ matchOn)) then c ++ "_x" else c)
        ++ ((selectCols dfForm (matchOn :: fields.filter (fun c => c ∈ dfForm.cols))).cols.filter
              (fun c2 => c2 ≠ matchOn)).map (fun c =>
          if c ∈ (renameLoop dfMain fields).cols then c ++ "_y" else c) := by
  rw [mergeAttachments_eq_merge dfMain dfForm matchOn fields h67]
  rw [pdMerge_ok _ _ _ hmL (List.mem_cons_self _ _)]

/-- C5 amended: the attachment merge renames every primary column that
collides with an attachment field to its _file form before joining (the
merged columns are exactly the renamed primary columns followed by the
attachment columns taken from the secondary table), and the merged
column names are distinct, provided that for no attachment field its
_file companion is already a primary column or itself an attachment
field; the counterexample shows the proviso is needed. -/
theorem c5_amended_rename_and_unique_columns (dfMain dfForm : DFrame) (matchOn : String)
    (fields : List String)
    (h1 : dfMain.cols.Nodup) (h2 : fields.Nodup) (h3 : matchOn ∉ fields)
    (h4 : ∀ f ∈ fields, (f ++ "_file") ∉ dfMain.cols)
    (h5 : ∀ f ∈ fields, (f ++ "_file") ∉ fields)
    (h6 : matchOn ∈ dfMain.cols) (h7 : matchOn ∈ dfForm.cols) :
    (mergeAttachments dfMain true matchOn fields (.ok dfForm)).cols
        = dfMain.cols.map (fun c => if c ∈ fields then c ++ "_file" else c)
          ++ fields.filter (fun c => c ∈ dfForm.cols)
      ∧ (mergeAttachments dfMain true matchOn fields (.ok dfForm)).cols.Nodup := by
  obtain ⟨hrc, _⟩ := renameLoop_cols fields dfMain h5
  have hinj : ∀ x ∈ dfMain.cols, ∀ y ∈ dfMain.cols,
      (if x ∈ fields then x ++ "_file" else x) = (if y ∈ fields then y ++ "_file" else y) →
      x = y := by
    intro x hx y hy hxy
    by_cases hxf : x ∈ fields <;> by_cases hyf : y ∈ fields
    · rw [if_pos hxf, if_pos hyf] at hxy
      exact strAppend_cancel_right "_file" hxy
    · rw [if_pos hxf, if_neg hyf] at hxy
      exact absurd (hxy ▸ hy) (h4 x hxf)
    · rw [if_neg hxf, if_pos hyf] at hxy
      exact absurd (hxy ▸ hx) (h4 y hyf)
    · rw [if_neg hxf, if_neg hyf] at hxy
      exact hxy
  have hLnf : ∀ c ∈ dfMain.cols.map (fun c => if c ∈ fields then c ++ "_file" else c),
      c ∉ fields := by
    intro c hc
    obtain ⟨c0, hc0, rfl⟩ := List.mem_map.mp hc
    by_cases hc0f : c0 ∈ fields
    · rw [if_pos hc0f]
      exact h5 c0 hc0f
    · rw [if_neg hc0f]
      exact hc0f
  have hfilsub : ∀ x ∈ fields.filter (fun c => c ∈ dfForm.cols), x ∈ fields :=
    fun x hx => (List.mem_filter.mp hx).1
  have hkeepfil : (matchOn :: fields.filter (fun c => c ∈ dfForm.cols)).filter
      (fun c2 => c2 ≠ matchOn) = fields.filter (fun c => c ∈ dfForm.cols) := by
    rw [List.filter_cons, if_neg (by simp)]
    refine List.filter_eq_self.mpr ?_
    intro x hx
    have hxm : x ≠ matchOn := fun hxm => h3 (hxm ▸ hfilsub x hx)
    simp [hxm]
  have hmL : matchOn ∈ (renameLoop dfMain fields).cols := by
    rw [hrc]
    refine List.mem_map.mpr ⟨matchOn, h6, ?_⟩
    rw [if_neg h3]
  have hsel : (selectCols dfForm (matchOn :: fields.filter (fun c => c ∈ dfForm.cols))).cols
      = matchOn :: fields.filter (fun c => c ∈ dfForm.cols) := rfl
  have hcols : (mergeAttachments dfMain true matchOn fields (.ok dfForm)).cols
      = dfMain.cols.map (fun c => if c ∈ fields then c ++ "_file" else c)
        ++ fields.filter (fun c => c ∈ dfForm.cols) := by
    rw [mergeAttachments_ok_cols dfMain dfForm matchOn fields ⟨h6, h7⟩ hmL]
    rw [hsel, hkeepfil, hrc]
    have hx : (dfMain.cols.map (fun c => if c ∈ fields then c ++ "_file" else c)).map
        (fun c => if c ∈ fields.filter (fun c => c ∈ dfForm.cols) then c ++ "_x" else c)
        = dfMain.cols.map (fun c => if c ∈ fields then c ++ "_file" else c) := by
      refine (List.map_congr_left ?_).trans (List.map_id _)
      intro c hc
      have : c ∉ fields.filter (fun c => c ∈ dfForm.cols) :=
        fun hin => hLnf c hc (hfilsub c hin)
      rw [if_neg this]
      rfl
    have hy : (fields.filter (fun c => c ∈ dfForm.cols)).map
        (fun c => if c ∈ dfMain.cols.map (fun c => if c ∈ fields then c ++ "_file" else c)
                  then c ++ "_y" else c)
        = fields.filter (fun c => c ∈ dfForm.cols) := by
      refine (List.map_congr_left ?_).trans (List.map_id _)
      intro c hc
      have : c ∉ dfMain.cols.map (fun c => if c ∈ fields then c ++ "_file" else c) :=
        fun hin => hLnf c hin (hfilsub c hc)
      rw [if_neg this]
      rfl
    rw [hx, hy]
  refine ⟨hcols, ?_⟩
  rw [hcols]
  refine List.Nodup.append (h1.map_on hinj) (h2.filter _) (List.disjoint_left.mpr ?_)
  intro a ha hafil
  exact hLnf a ha (hfilsub a hafil)

/-- C5 amended witness: a merge with fields doc and photo, where doc is
a primary column and neither _file companion exists beforehand, renames
doc and produces the duplicate-free column list. -/
theorem c5_witness :
    c5wmain.cols.Nodup ∧ (["doc", "photo"] : List String).Nodup
      ∧ "KEY" ∉ (["doc", "photo"] : List String)
      ∧ (∀ f ∈ (["doc", "photo"] : List String), (f ++ "_file") ∉ c5wmain.cols)
      ∧ (∀ f ∈ (["doc", "photo"] : List String), (f ++ "_file") ∉ (["doc", "photo"] : List String))
      ∧ "KEY" ∈ c5wmain.cols ∧ "KEY" ∈ c5wform.cols
      ∧ (mergeAttachments c5wmain true "KEY" ["doc", "photo"] (.ok c5wform)).cols
          = ["KEY", "doc_file", "note", "doc", "photo"]
      ∧ (mergeAttachments c5wmain true "KEY" ["doc", "photo"] (.ok c5wform)).cols.Nodup := by
  have h := c5_amended_rename_and_unique_columns c5wmain c5wform "KEY" ["doc", "photo"]
    (by decide) (by decide) (by decide) (by decide) (by decide) (by decide) (by decide)
  refine ⟨by decide, by decide, by decide, by decide, by decide, by decide, by decide, ?_, h.2⟩
  rw [h.1]
  decide

/-! ## Lemmas for multi-choice resolution: Python split of a joined list -/

theorem splitAux_nil_acc (a : Char) (acc : List Char) :
    splitAux [] (a :: acc) = [(a :: acc).reverse] := rfl

theorem splitAux_token (t : List Char) :
    ∀ (cs acc : List Char), (∀ c ∈ t, c.isWhitespace = false) →
      splitAux (t ++ cs) acc = splitAux cs (t.reverse ++ acc) := by
  induction t with
  | nil =>
    intro cs acc _
    simp
  | cons c t2 ih =>
    intro cs acc h
    have hc : c.isWhitespace = false := h c (List.mem_cons_self c t2)
    have h2 : ∀ d ∈ t2, d.isWhitespace = false :=
      fun d hd => h d (List.mem_cons_of_mem c hd)
    show splitAux (c :: (t2 ++ cs)) acc = splitAux cs ((c :: t2).reverse ++ acc)
    rw [splitAux.eq_def]
    simp only [hc, Bool.false_eq_true, if_false]
    rw [ih cs (c :: acc) h2]
    simp [List.append_assoc]

theorem splitAux_allws (w : List Char) :
    ∀ acc : List Char, (∀ c ∈ w, c.isWhitespace = true) →
      splitAux w acc = splitAux [] acc := by
  induction w with
  | nil => intro acc _; rfl
  | cons c w2 ih =>
    intro acc h
    have hc : c.isWhitespace = true := h c (List.mem_cons_self c w2)
    have h2 : ∀ d ∈ w2, d.isWhitespace = true :=
      fun d hd => h d (List.mem_cons_of_mem c hd)
    rw [splitAux.eq_def]
    simp only [hc, if_true]
    cases acc with
    | nil => rw [ih [] h2]
    | cons a as => rw [ih [] h2]; rfl

theorem splitAux_append_ws (cs : List Char) :
    ∀ (w acc : List Char), (∀ c ∈ w, c.isWhitespace = true) →
      splitAux (cs ++ w) acc = splitAux cs acc := by
  induction cs with
  | nil =>
    intro w acc h
    exact splitAux_allws w acc h
  | cons c cs2 ih =>
    intro w acc h
    show splitAux (c :: (cs2 ++ w)) acc = splitAux (c :: cs2) acc
    rw [splitAux.eq_def, splitAux.eq_def]
    by_cases hc : c.isWhitespace
    · simp only [hc, if_true]
      cases acc with
      | nil => exact ih w [] h
      | cons a as => rw [ih w [] h]
    · rw [Bool.not_eq_true] at hc
      simp only [hc, Bool.false_eq_true, if_false]
      exact ih w (c :: acc) h

theorem splitAux_ws_head (w : List Char) :
    ∀ cs : List Char, (∀ c ∈ w, c.isWhitespace = true) →
      splitAux (w ++ cs) [] = splitAux cs [] := by
  induction w with
  | nil => intro cs _; rfl
  | cons c w2 ih =>
    intro cs h
    have hc : c.isWhitespace = true := h c (List.mem_cons_self c w2)
    show splitAux (c :: (w2 ++ cs)) [] = splitAux cs []
    rw [splitAux.eq_def]
    simp only [hc, if_true]
    exact ih cs (fun d hd => h d (List.mem_cons_of_mem c hd))

theorem dropWhile_of_all {p : Char → Bool} (l : List Char)
    (h : ∀ c ∈ l, p c = false) : l.dropWhile p = l := by
  cases l with
  | nil => rfl
  | cons c cs =>
    rw [List.dropWhile_cons, h c (List.mem_cons_self c cs)]
    simp

theorem splitAux_stripChars (cs : List Char) :
    splitAux (stripChars cs) [] = splitAux cs [] := by
  have h1 : splitAux cs [] = splitAux (cs.dropWhile Char.isWhitespace) [] := by
    conv_lhs => rw [← List.takeWhile_append_dropWhile Char.isWhitespace cs]
    exact splitAux_ws_head _ _ (fun c hc => List.mem_takeWhile_imp hc)
  have hdecomp : cs.dropWhile Char.isWhitespace
      = ((cs.dropWhile Char.isWhitespace).reverse.dropWhile Char.isWhitespace).reverse
        ++ ((cs.dropWhile Char.isWhitespace).reverse.takeWhile Char.isWhitespace).reverse := by
    conv_lhs => rw [← List.reverse_reverse (cs.dropWhile Char.isWhitespace),
      ← List.takeWhile_append_dropWhile Char.isWhitespace
        (cs.dropWhile Char.isWhitespace).reverse]
    rw [List.reverse_append]
  have h2 : splitAux (cs.dropWhile Char.isWhitespace) []
      = splitAux ((cs.dropWhile Char.isWhitespace).reverse.dropWhile Char.isWhitespace).reverse [] := by
    conv_lhs => rw [hdecomp]
    exact splitAux_append_ws _ _ []
      (fun c hc => List.mem_takeWhile_imp (List.mem_reverse.mp hc))
  show splitAux ((cs.dropWhile Char.isWhitespace).reverse.dropWhile Char.isWhitespace).reverse []
      = splitAux cs []
  rw [← h2, ← h1]

theorem pyJoin_space_data (l : List String) :
    (pyJoin " " l).data = joinTok (l.map String.data) := by
  induction l with
  | nil => rfl
  | cons x xs ih =>
    cases xs with
    | nil => rfl
    | cons y ys =>
      show (x ++ " " ++ pyJoin " " (y :: ys)).data
          = x.data ++ ' ' :: joinTok ((y :: ys).map String.data)
      rw [String.data_append, String.data_append, ih]
      simp

theorem tokens_of_join (ts : List (List Char))
    (h : ∀ t ∈ ts, t ≠ [] ∧ ∀ c ∈ t, c.isWhitespace = false) :
    splitAux (joinTok ts) [] = ts := by
  induction ts with
  | nil => rfl
  | cons t ts2 ih =>
    have ht := h t (List.mem_cons_self t ts2)
    have hrevne : t.reverse ≠ [] := fun hx => ht.1 (List.reverse_eq_nil_iff.mp hx)
    obtain ⟨a, as, hrev⟩ := List.exists_cons_of_ne_nil hrevne
    cases ts2 with
    | nil =>
      show splitAux (joinTok [t]) [] = [t]
      rw [joinTok]
      conv_lhs => rw [← List.append_nil t]
      rw [splitAux_token t [] [] ht.2]
      rw [List.append_nil, hrev, splitAux_nil_acc]
      rw [← hrev, List.reverse_reverse]
    | cons t2 ts3 =>
      have ih2 := ih (fun u hu => h u (List.mem_cons_of_mem t hu))
      show splitAux (joinTok (t :: t2 :: ts3)) [] = t :: t2 :: ts3
      rw [joinTok]
      rw [splitAux_token t (' ' :: joinTok (t2 :: ts3)) [] ht.2]
      rw [List.append_nil, hrev]
      rw [splitAux.eq_def]
      simp only [show (' ').isWhitespace = true from rfl, if_true]
      rw [← hrev, List.reverse_reverse, ih2]

theorem stripChars_of_nonws (l : List Char)
    (h : ∀ c ∈ l, c.isWhitespace = false) : stripChars l = l := by
  unfold stripChars
  rw [dropWhile_of_all l h]
  rw [dropWhile_of_all l.reverse (fun c hc => h c (List.mem_reverse.mp hc))]
  exact List.reverse_reverse l

theorem pyStrip_of_nonws (c : String)
    (h : ∀ ch ∈ c.data, ch.isWhitespace = false) : pyStrip c = c := by
  unfold pyStrip
  rw [stripChars_of_nonws c.data h]

/-- Python split of the stripped space-join of nonempty whitespace-free
codes returns exactly those codes. -/
theorem pySplit_join (codes : List String)
    (h : ∀ c ∈ codes, c ≠ "" ∧ ∀ ch ∈ c.data, ch.isWhitespace = false) :
    pySplit (pyStrip (pyJoin " " codes)) = codes := by
  unfold pySplit
  have hdata : (pyStrip (pyJoin " " codes)).data = stripChars (pyJoin " " codes).data := rfl
  rw [hdata, splitAux_stripChars, pyJoin_space_data]
  rw [tokens_of_join (codes.map String.data) ?wf]
  case wf =>
    intro t ht
    obtain ⟨c, hc, rfl⟩ := List.mem_map.mp ht
    refine ⟨fun hx => (h c hc).1 (String.ext hx), (h c hc).2⟩
  rw [List.map_map]
  refine (List.map_congr_left ?_).trans (List.map_id _)
  intro c _
  exact String.ext rfl

theorem map_pyStrip_eq (codes : List String)
    (h : ∀ c ∈ codes, c ≠ "" ∧ ∀ ch ∈ c.data, ch.isWhitespace = false) :
    codes.map pyStrip = codes := by
  refine (List.map_congr_left ?_).trans (List.map_id _)
  intro c hc
  exact pyStrip_of_nonws c (h c hc).2

theorem asStrs_map (g : String → PValue) (codes : List String)
    (h : ∀ c ∈ codes, ∃ s, g c = .str s) :
    asStrs (codes.map g) = .ok (codes.map (fun c => pyStr (g c))) := by
  induction codes with
  | nil => rfl
  | cons c cs ih =>
    obtain ⟨s, hs⟩ := h c (List.mem_cons_self c cs)
    have ih2 := ih (fun d hd => h d (List.mem_cons_of_mem c hd))
    rw [List.map_cons, hs, asStrs, ih2]
    rw [List.map_cons, hs]
    rfl

/-- C7: resolving a multi-choice value of a bound field splits on
whitespace, maps each code independently with raw passthrough on a
miss, and joins with the fixed separator preserving the original code
order; a non-string value and the empty string pass through unchanged. -/
theorem c7_multi_choice_resolution (li : LabelInfo) (field ln : String)
    (codes : List String)
    (hln : List.lookup (PValue.str field) li.selectMultiple = some ln)
    (hne : ln ≠ "")
    (hcodes : ∀ c ∈ codes, c ≠ "" ∧ ∀ ch ∈ c.data, ch.isWhitespace = false)
    (hlabels : ∀ c ∈ codes, ∃ s,
        (List.lookup c ((List.lookup (PValue.str ln) li.labelMap).getD [])).getD
          (PValue.str c) = .str s) :
    getLabelsForMultiple field (.str (pyJoin " " codes)) li
        = .ok (.str (pyJoin " | " (codes.map (fun c =>
            pyStr ((List.lookup c ((List.lookup (PValue.str ln) li.labelMap).getD [])).getD
              (PValue.str c))))))
      ∧ (∀ v : PValue, (∀ s, v ≠ .str s) → getLabelsForMultiple field v li = .ok v)
      ∧ getLabelsForMultiple field (.str "") li = .ok (.str "") := by
  refine ⟨?_, ?_, ?_⟩
  · show getLabelsForMultiple field (.str (pyJoin " " codes)) li = _
    unfold getLabelsForMultiple
    rw [hln]
    simp only [if_neg hne]
    rw [pySplit_join codes hcodes, map_pyStrip_eq codes hcodes]
    unfold pyJoinVals
    rw [asStrs_map _ codes hlabels]
    rfl
  · intro v hv
    unfold getLabelsForMultiple
    rw [hln]
    simp only [if_neg hne]
  · unfold getLabelsForMultiple
    rw [hln]
    simp only [if_neg hne]
    rfl

/-- C7 witness: codes b then a resolve to Banana then Apple, in input
order, joined by the fixed separator. -/
theorem c7_witness :
    List.lookup (PValue.str "mf") c7li.selectMultiple = some "L"
      ∧ ("L" : String) ≠ ""
      ∧ (∀ c ∈ (["b", "a"] : List String), c ≠ "" ∧ ∀ ch ∈ c.data, ch.isWhitespace = false)
      ∧ getLabelsForMultiple "mf" (.str "b a") c7li = .ok (.str "Banana | Apple") := by
  have hlab : ∀ c ∈ (["b", "a"] : List String), ∃ s,
      (List.lookup c ((List.lookup (PValue.str "L") c7li.labelMap).getD [])).getD
        (PValue.str c) = .str s := by
    intro c hc
    simp only [List.mem_cons, List.not_mem_nil, or_false] at hc
    rcases hc with rfl | rfl
    · exact ⟨"Banana", by decide⟩
    · exact ⟨"Apple", by decide⟩
  have h := (c7_multi_choice_resolution c7li "mf" "L" ["b", "a"]
    (by decide) (by decide) (by decide) hlab).1
  refine ⟨by decide, by decide, by decide, ?_⟩
  rw [show ("b a" : String) = pyJoin " " ["b", "a"] from by decide]
  exact h.trans (by decide)
